import Mathlib

/-!
Shallow embedding of the Denovo HDF5 frontend
(`yt/frontends/denovo/data_structures.py`).

Python-side effects are made explicit:
  * exceptions are modelled by `Except PyErr`;
  * an HDF5 group is a finite association list from member names to entries;
  * the parameter dictionary is an association list from names to values.
-/

/-- Kinds of Python exceptions the embedded code can raise. -/
inductive PyErr where
  | keyError
  | valueError
  | typeError
  | attributeError
  | osError
deriving DecidableEq, Repr

/-- A value stored in an HDF5 dataset / the parameter mapping: either a
scalar integer or a 1-D numeric array. -/
inductive PyVal where
  | int (n : Int)
  | arr (xs : List Int)
deriving DecidableEq, Repr

/-- An opened HDF5 file, abstracted to the list of names of its root members.
This is all `_is_valid` inspects. -/
structure H5File where
  root : List String
deriving DecidableEq, Repr

/-- A member of the root marker group: a leaf dataset holding a value, or a
nested subgroup (whose contents `_load_parameters` never descends into). -/
inductive H5Entry where
  | dataset (v : PyVal)
  | group
deriving DecidableEq, Repr

/-- Removal of the first occurrence of an element from a list, the effect of
a successful Python `list.remove`. -/
def eraseFirst {α : Type} [DecidableEq α] : List α → α → List α
  | [], _ => []
  | x :: xs, a => if x = a then xs else x :: eraseFirst xs a

/-- Python `list.remove`: removes the first occurrence of an element, raising
`ValueError` when the element is absent. -/
def listRemove {α : Type} [DecidableEq α] (l : List α) (a : α) : Except PyErr (List α) :=
  if a ∈ l then Except.ok (eraseFirst l a) else Except.error PyErr.valueError

/-- Left-pad a digit string with zeros up to width `w`. -/
def zfill (s : String) (w : Nat) : String :=
  String.mk (List.replicate (w - s.length) '0') ++ s

/-- Python `'%03i' % n`: minimum width 3, zero padded, sign counted in the
width. -/
def fmt03i (n : Int) : String :=
  if n < 0 then "-" ++ zfill (toString (-n)) 2 else zfill (toString n) 3

/-- The energy-group field-type label `'egroup_%03i' % group_number`. -/
def egroupLabel (n : Int) : String :=
  "egroup_" ++ fmt03i n

/-- Names of the datasets under `/denovo/db/hdf5_db` whose stored scalar is
truthy, in file order.  These are the names the comprehension
`[... for key, val in ... .items() if val.value]` keeps. -/
def truthyKeys (db : List (String × Int)) : List String :=
  (db.filter (fun p => p.2 != 0)).map Prod.fst

/-- DenovoDataset._is_valid: open the candidate file (the open attempt is the
`Except`-valued argument), return true only when a root group named
"denovo" or "denovo-forward" exists; every exception is swallowed by the
bare `except:` and turned into `False`.  The function is total, so no
exception escapes. -/
def DenovoDataset_is_valid (openResult : Except PyErr H5File) : Bool :=
  match openResult with
  | Except.error _ => false
  | Except.ok fileh =>
      decide ("denovo" ∈ fileh.root) || decide ("denovo-forward" ∈ fileh.root)

/-- DenovoIndex._create_group_fields: given the field list built so far, an
energy-group number, and the `/denovo/db/hdf5_db` group, append
`(field_type, key)` for every truthy-valued dataset, then remove
`(field_type, 'angular_mesh')` if present and remove `(field_type, 'block')`
unconditionally (Python `list.remove`, which raises `ValueError` when the
pair is absent). -/
def _create_group_fields (field_list : List (String × String)) (group_number : Int)
    (db : List (String × Int)) : Except PyErr (List (String × String)) :=
  let field_type := egroupLabel group_number
  let l0 := field_list ++ (db.filter (fun p => p.2 != 0)).map (fun p => (field_type, p.1))
  let l1 := if (field_type, "angular_mesh") ∈ l0 then eraseFirst l0 (field_type, "angular_mesh")
    else l0
  listRemove l1 (field_type, "block")

/-- Python `len`: defined on arrays, a `TypeError` on a scalar. -/
def pyLen : PyVal → Except PyErr Nat
  | PyVal.arr xs => Except.ok xs.length
  | PyVal.int _ => Except.error PyErr.typeError

/-- DenovoIndex._detect_output_fields: `num_groups` is `len(parameters['mesh_g'])`
when the key is present, else 0.  With groups, the field list is built by
`_create_group_fields` per group (iterating a scalar raises `TypeError`);
without groups, every truthy dataset of `/denovo/db/hdf5_db` becomes a
`("denovo", key)` pair, then `('denovo','angular_mesh')` is removed if
present and `('denovo','block')` is removed unconditionally. -/
def _detect_output_fields (params : List (String × PyVal)) (db : List (String × Int)) :
    Except PyErr (List (String × String)) := do
  let num_groups ← match params.lookup "mesh_g" with
    | some v => pyLen v
    | none => pure 0
  if num_groups > 0 then
    match params.lookup "mesh_g" with
    | some (PyVal.arr gs) => gs.foldlM (fun fl g => _create_group_fields fl g db) []
    | some (PyVal.int _) => Except.error PyErr.typeError
    | none => Except.error PyErr.keyError
  else
    let l0 := (db.filter (fun p => p.2 != 0)).map (fun p => ("denovo", p.1))
    let l1 := if ("denovo", "angular_mesh") ∈ l0 then eraseFirst l0 ("denovo", "angular_mesh")
      else l0
    listRemove l1 ("denovo", "block")

/-- The keys the parameter loader skips because they hold field data. -/
def skippedKeys : List String :=
  ["flux", "source", "angular_flux", "block"]

/-- Python dict assignment `parameters[key] = val` on an association-list
model of the dictionary: overwrite the entry if the key exists, otherwise
append it. -/
def dictSet (m : List (String × PyVal)) (k : String) (v : PyVal) : List (String × PyVal) :=
  if m.any (fun p => p.1 == k) then
    m.map (fun p => if p.1 == k then (k, v) else p)
  else
    m ++ [(k, v)]

/-- One iteration of the `_load_parameters` loop: a nested group contributes
nothing; a dataset is stored unless its key is one of the skipped field
keys. -/
def loadStep (m : List (String × PyVal)) : String × H5Entry → List (String × PyVal)
  | (_, H5Entry.group) => m
  | (k, H5Entry.dataset v) => if k ∈ skippedKeys then m else dictSet m k v

/-- DenovoDataset._load_parameters: iterate the members of the root "denovo"
group in file order; for every member that is a dataset and whose key is not
one of the skipped field keys, store its value in the parameter dictionary.
The dictionary starts empty (the host base class initialises
`self.parameters` to an empty dict before `_parse_parameter_file` runs;
modelled from the spec, which says the mapping is copied verbatim from the
file's top-level group). -/
def _load_parameters (root : List (String × H5Entry)) : List (String × PyVal) :=
  root.foldl loadStep []

/-- DenovoDataset._load_energy_fluid_types: reads `parameters['mesh_g']`
unconditionally (a `KeyError` when absent); when the list is nonempty it
appends one `egroup_%03i` fluid-type label per group number, otherwise it
returns the fluid types unchanged. -/
def _load_energy_fluid_types (params : List (String × PyVal)) (fluid_types : List String) :
    Except PyErr (List String) := do
  let g ← match params.lookup "mesh_g" with
    | some v => pure v
    | none => Except.error PyErr.keyError
  let n ← pyLen g
  if n > 0 then
    match g with
    | PyVal.arr gs => pure (fluid_types ++ gs.map egroupLabel)
    | PyVal.int _ => Except.error PyErr.typeError
  else
    pure fluid_types

/-- Dictionary subscript `parameters[k]`: a `KeyError` when the key is
absent. -/
def getParam (params : List (String × PyVal)) (k : String) : Except PyErr PyVal :=
  match params.lookup k with
  | some v => Except.ok v
  | none => Except.error PyErr.keyError

/-- numpy `.min()` on a stored value: an `AttributeError` on a plain scalar,
a `ValueError` on an empty array, else the least element. -/
def pyValMin : PyVal → Except PyErr Int
  | PyVal.int _ => Except.error PyErr.attributeError
  | PyVal.arr [] => Except.error PyErr.valueError
  | PyVal.arr (x :: xs) => Except.ok (xs.foldl min x)

/-- numpy `.max()` on a stored value: an `AttributeError` on a plain scalar,
a `ValueError` on an empty array, else the greatest element. -/
def pyValMax : PyVal → Except PyErr Int
  | PyVal.int _ => Except.error PyErr.attributeError
  | PyVal.arr [] => Except.error PyErr.valueError
  | PyVal.arr (x :: xs) => Except.ok (xs.foldl max x)

/-- DenovoDataset._load_domain_edge: when 'mesh_x' is a key of the parameter
mapping, build the left edge from the minima of mesh_x, mesh_y, mesh_z (in
that evaluation order, each a fresh dictionary lookup) and the right edge
from their maxima; otherwise return two empty sequences. -/
def _load_domain_edge (params : List (String × PyVal)) :
    Except PyErr (List Int × List Int) :=
  if (params.lookup "mesh_x").isSome then do
    let vx ← getParam params "mesh_x"
    let lx ← pyValMin vx
    let vy ← getParam params "mesh_y"
    let ly ← pyValMin vy
    let vz ← getParam params "mesh_z"
    let lz ← pyValMin vz
    let wx ← getParam params "mesh_x"
    let rx ← pyValMax wx
    let wy ← getParam params "mesh_y"
    let ry ← pyValMax wy
    let wz ← getParam params "mesh_z"
    let rz ← pyValMax wz
    pure ([lx, ly, lz], [rx, ry, rz])
  else
    pure ([], [])

/-- The per-group field list that `_create_group_fields` contributes for one
field-type label: the truthy dataset names with 'angular_mesh' and 'block'
filtered out, each paired with the label. -/
def groupFieldList (field_type : String) (db : List (String × Int)) : List (String × String) :=
  (((truthyKeys db).filter (fun k => decide (k ≠ "angular_mesh"))).filter
      (fun k => decide (k ≠ "block"))).map
    (fun k => (field_type, k))

/-- The association list that `_load_parameters` produces on a root group
with distinct member names: every leaf dataset outside the skipped keys,
paired with its value, in file order. -/
def canonicalParams (root : List (String × H5Entry)) : List (String × PyVal) :=
  root.filterMap (fun p =>
    match p.2 with
    | H5Entry.dataset v => if p.1 ∈ skippedKeys then none else some (p.1, v)
    | H5Entry.group => none)

/-- Being the minimum of a list: a member that bounds every member below. -/
def IsMinOf (m : Int) (l : List Int) : Prop :=
  m ∈ l ∧ ∀ a ∈ l, m ≤ a

/-- Being the maximum of a list: a member that bounds every member above. -/
def IsMaxOf (m : Int) (l : List Int) : Prop :=
  m ∈ l ∧ ∀ a ∈ l, a ≤ m

/-- A fold of `min` over a list computes the minimum of the seed and the
elements. -/
theorem foldl_min_isMinOf (xs : List Int) : ∀ x : Int, IsMinOf (xs.foldl min x) (x :: xs) := by
  induction xs with
  | nil =>
      intro x
      exact ⟨List.mem_singleton.mpr rfl, by intro a ha; simp at ha; simp [ha]⟩
  | cons y ys ih =>
      intro x
      have h := ih (min x y)
      rw [List.foldl_cons]
      constructor
      · rcases List.mem_cons.mp h.1 with heq | hmem
        · rcases min_choice x y with hm | hm
          · exact List.mem_cons.mpr (Or.inl (by rw [heq, hm]))
          · exact List.mem_cons.mpr (Or.inr (List.mem_cons.mpr (Or.inl (by rw [heq, hm]))))
        · exact List.mem_cons.mpr (Or.inr (List.mem_cons.mpr (Or.inr hmem)))
      · intro a ha
        rcases List.mem_cons.mp ha with ha1 | ha2
        · rw [ha1]
          exact le_trans (h.2 (min x y) (List.mem_cons_self _ _)) (min_le_left x y)
        · rcases List.mem_cons.mp ha2 with ha3 | ha4
          · rw [ha3]
            exact le_trans (h.2 (min x y) (List.mem_cons_self _ _)) (min_le_right x y)
          · exact h.2 a (List.mem_cons_of_mem _ ha4)

/-- A fold of `max` over a list computes the maximum of the seed and the
elements. -/
theorem foldl_max_isMaxOf (xs : List Int) : ∀ x : Int, IsMaxOf (xs.foldl max x) (x :: xs) := by
  induction xs with
  | nil =>
      intro x
      exact ⟨List.mem_singleton.mpr rfl, by intro a ha; simp at ha; simp [ha]⟩
  | cons y ys ih =>
      intro x
      have h := ih (max x y)
      rw [List.foldl_cons]
      constructor
      · rcases List.mem_cons.mp h.1 with heq | hmem
        · rcases max_choice x y with hm | hm
          · exact List.mem_cons.mpr (Or.inl (by rw [heq, hm]))
          · exact List.mem_cons.mpr (Or.inr (List.mem_cons.mpr (Or.inl (by rw [heq, hm]))))
        · exact List.mem_cons.mpr (Or.inr (List.mem_cons.mpr (Or.inr hmem)))
      · intro a ha
        rcases List.mem_cons.mp ha with ha1 | ha2
        · rw [ha1]
          exact le_trans (le_max_left x y) (h.2 (max x y) (List.mem_cons_self _ _))
        · rcases List.mem_cons.mp ha2 with ha3 | ha4
          · rw [ha3]
            exact le_trans (le_max_right x y) (h.2 (max x y) (List.mem_cons_self _ _))
          · exact h.2 a (List.mem_cons_of_mem _ ha4)

/-- C1: the validator returns true exactly when the file opened successfully
and has a root member named "denovo" or "denovo-forward"; in particular it
returns false (rather than raising -- it is a total Bool-valued function)
on every failed open and on every file lacking the marker group. -/
theorem C1_is_valid_iff (r : Except PyErr H5File) :
    DenovoDataset_is_valid r = true ↔
      ∃ f, r = Except.ok f ∧ ("denovo" ∈ f.root ∨ "denovo-forward" ∈ f.root) := by
  cases r with
  | error e =>
      simp [DenovoDataset_is_valid]
  | ok f =>
      simp [DenovoDataset_is_valid]

/-- C4: evaluation at the failing input.  With a parameter mapping that
lacks the optional 'mesh_g' key, `_load_energy_fluid_types` raises KeyError
instead of completing with the fluid types unchanged, although the sibling
`_detect_output_fields` guards the same key with a membership test and the
spec calls the absence a valid zero-group state. -/
theorem C4_missing_mesh_g_raises_keyerror :
    _load_energy_fluid_types [] ["denovo"] = Except.error PyErr.keyError := rfl

/-- C5: when the parameter mapping holds nonempty arrays for mesh_x, mesh_y
and mesh_z, `_load_domain_edge` returns the per-axis minima as the left edge
and the per-axis maxima as the right edge. -/
theorem C5_domain_edge_min_max (params : List (String × PyVal)) (xs ys zs : List Int)
    (hx : params.lookup "mesh_x" = some (PyVal.arr xs))
    (hy : params.lookup "mesh_y" = some (PyVal.arr ys))
    (hz : params.lookup "mesh_z" = some (PyVal.arr zs))
    (hxne : xs ≠ []) (hyne : ys ≠ []) (hzne : zs ≠ []) :
    ∃ lx ly lz rx ry rz,
      _load_domain_edge params = Except.ok ([lx, ly, lz], [rx, ry, rz]) ∧
      IsMinOf lx xs ∧ IsMinOf ly ys ∧ IsMinOf lz zs ∧
      IsMaxOf rx xs ∧ IsMaxOf ry ys ∧ IsMaxOf rz zs := by
  obtain ⟨x, xt, rfl⟩ := List.exists_cons_of_ne_nil hxne
  obtain ⟨y, yt, rfl⟩ := List.exists_cons_of_ne_nil hyne
  obtain ⟨z, zt, rfl⟩ := List.exists_cons_of_ne_nil hzne
  refine ⟨xt.foldl min x, yt.foldl min y, zt.foldl min z,
    xt.foldl max x, yt.foldl max y, zt.foldl max z, ?_,
    foldl_min_isMinOf xt x, foldl_min_isMinOf yt y, foldl_min_isMinOf zt z,
    foldl_max_isMaxOf xt x, foldl_max_isMaxOf yt y, foldl_max_isMaxOf zt z⟩
  simp [_load_domain_edge, hx, hy, hz, getParam, pyValMin, pyValMax, bind, Except.bind, pure,
    Except.pure]

/-- C5 witness: the spec's concrete example mesh_x=[0,1,2], mesh_y=[0,1],
mesh_z=[0,5] gives left=[0,0,0] and right=[2,1,5]. -/
theorem C5_domain_edge_min_max_witness :
    (∃ lx ly lz rx ry rz,
      _load_domain_edge
          [("mesh_x", PyVal.arr [0, 1, 2]), ("mesh_y", PyVal.arr [0, 1]),
            ("mesh_z", PyVal.arr [0, 5])] =
        Except.ok ([lx, ly, lz], [rx, ry, rz]) ∧
      IsMinOf lx [0, 1, 2] ∧ IsMinOf ly [0, 1] ∧ IsMinOf lz [0, 5] ∧
      IsMaxOf rx [0, 1, 2] ∧ IsMaxOf ry [0, 1] ∧ IsMaxOf rz [0, 5]) ∧
    _load_domain_edge
        [("mesh_x", PyVal.arr [0, 1, 2]), ("mesh_y", PyVal.arr [0, 1]),
          ("mesh_z", PyVal.arr [0, 5])] =
      Except.ok ([0, 0, 0], [2, 1, 5]) :=
  ⟨C5_domain_edge_min_max _ [0, 1, 2] [0, 1] [0, 5] rfl rfl rfl (by decide) (by decide)
    (by decide), rfl⟩

/-- C6: when 'mesh_x' is not a key of the parameter mapping (in particular
when all coordinate arrays are absent), `_load_domain_edge` returns two
empty sequences and raises nothing. -/
theorem C6_domain_edge_empty (params : List (String × PyVal))
    (h : params.lookup "mesh_x" = none) :
    _load_domain_edge params = Except.ok ([], []) := by
  simp [_load_domain_edge, h, pure, Except.pure]

/-- C6 witness: the empty parameter mapping yields empty edges. -/
theorem C6_domain_edge_empty_witness :
    _load_domain_edge [] = Except.ok ([], []) :=
  C6_domain_edge_empty [] rfl

/-- C10 counterexample: the mapping that stores an empty array under
'mesh_x' and lacks 'mesh_y' makes `_load_domain_edge` raise ValueError
(numpy `.min()` of a zero-size array), not KeyError, refuting the claim as
stated. -/
theorem C10_counterexample :
    ([("mesh_x", PyVal.arr [])] : List (String × PyVal)).lookup "mesh_y" = none ∧
    _load_domain_edge [("mesh_x", PyVal.arr [])] = Except.error PyErr.valueError ∧
    PyErr.valueError ≠ PyErr.keyError :=
  ⟨rfl, rfl, by decide⟩

/-- C10 amended: when 'mesh_x' holds a nonempty array and either 'mesh_y' is
absent, or 'mesh_y' holds a nonempty array and 'mesh_z' is absent,
`_load_domain_edge` raises KeyError rather than returning empty edges. -/
theorem C10_incomplete_coordinates_keyerror (params : List (String × PyVal)) (xs : List Int)
    (hx : params.lookup "mesh_x" = some (PyVal.arr xs)) (hxne : xs ≠ [])
    (h : params.lookup "mesh_y" = none ∨
      ((∃ ys, params.lookup "mesh_y" = some (PyVal.arr ys) ∧ ys ≠ []) ∧
        params.lookup "mesh_z" = none)) :
    _load_domain_edge params = Except.error PyErr.keyError := by
  obtain ⟨x, xt, rfl⟩ := List.exists_cons_of_ne_nil hxne
  rcases h with hy | ⟨⟨ys, hy, hyne⟩, hz⟩
  · simp [_load_domain_edge, hx, hy, getParam, pyValMin, bind, Except.bind]
  · obtain ⟨y, yt, rfl⟩ := List.exists_cons_of_ne_nil hyne
    simp [_load_domain_edge, hx, hy, hz, getParam, pyValMin, bind, Except.bind]

/-- C10 amended witness: a mapping holding only mesh_x=[0] raises KeyError. -/
theorem C10_incomplete_coordinates_keyerror_witness :
    _load_domain_edge [("mesh_x", PyVal.arr [0])] = Except.error PyErr.keyError :=
  C10_incomplete_coordinates_keyerror [("mesh_x", PyVal.arr [0])] [0] rfl (by decide)
    (Or.inl rfl)

theorem mem_of_mem_eraseFirst {α : Type} [DecidableEq α] {l : List α} {a b : α}
    (h : b ∈ eraseFirst l a) : b ∈ l := by
  induction l with
  | nil => simp [eraseFirst] at h
  | cons x xs ih =>
      rw [eraseFirst] at h
      by_cases hx : x = a
      · rw [if_pos hx] at h
        exact List.mem_cons_of_mem _ h
      · rw [if_neg hx] at h
        rcases List.mem_cons.mp h with h1 | h2
        · exact h1 ▸ List.mem_cons_self _ _
        · exact List.mem_cons_of_mem _ (ih h2)

theorem mem_eraseFirst_of_ne {α : Type} [DecidableEq α] {l : List α} {a b : α}
    (hne : b ≠ a) : b ∈ eraseFirst l a ↔ b ∈ l := by
  induction l with
  | nil => simp [eraseFirst]
  | cons x xs ih =>
      rw [eraseFirst]
      by_cases hx : x = a
      · rw [if_pos hx]
        constructor
        · exact fun h => List.mem_cons_of_mem _ h
        · intro h
          rcases List.mem_cons.mp h with h1 | h2
          · exact absurd (h1.trans hx) hne
          · exact h2
      · rw [if_neg hx]
        simp only [List.mem_cons, ih]

theorem eraseFirst_append_of_not_mem {α : Type} [DecidableEq α] {l1 : List α} (l2 : List α)
    {a : α} (h : a ∉ l1) : eraseFirst (l1 ++ l2) a = l1 ++ eraseFirst l2 a := by
  induction l1 with
  | nil => rfl
  | cons x xs ih =>
      have hxne : ¬ x = a := fun hx => h (List.mem_cons.mpr (Or.inl hx.symm))
      rw [List.cons_append, eraseFirst, if_neg hxne, List.cons_append,
        ih (fun hm => h (List.mem_cons_of_mem _ hm))]

theorem eraseFirst_map_pair (ft a : String) (ks : List String) :
    eraseFirst (ks.map (fun k => (ft, k))) (ft, a) = (eraseFirst ks a).map (fun k => (ft, k)) := by
  induction ks with
  | nil => rfl
  | cons k ks ih =>
      rw [List.map_cons, eraseFirst, eraseFirst]
      by_cases hk : k = a
      · rw [if_pos hk, if_pos (by rw [hk])]
      · rw [if_neg hk, if_neg (fun hp => hk (congrArg Prod.snd hp)), List.map_cons, ih]

theorem eraseFirst_eq_filter {α : Type} [DecidableEq α] {ks : List α} (hks : ks.Nodup) (a : α) :
    eraseFirst ks a = ks.filter (fun b => decide (b ≠ a)) := by
  induction ks with
  | nil => rfl
  | cons k ks ih =>
      rw [List.nodup_cons] at hks
      rw [eraseFirst]
      by_cases hk : k = a
      · subst hk
        rw [if_pos rfl]
        have hcons : List.filter (fun b => decide (b ≠ k)) (k :: ks) =
            List.filter (fun b => decide (b ≠ k)) ks := by simp
        have hself : List.filter (fun b => decide (b ≠ k)) ks = ks :=
          List.filter_eq_self.mpr
            (fun b hb => decide_eq_true (fun he : b = k => hks.1 (he ▸ hb)))
        rw [hcons, hself]
      · rw [if_neg hk]
        have hcons : List.filter (fun b => decide (b ≠ a)) (k :: ks) =
            k :: List.filter (fun b => decide (b ≠ a)) ks := by simp [hk]
        rw [hcons, ih hks.2]

theorem pairLabel_fst {ft : String} {p : String × String} {ks : List String}
    (h : p ∈ ks.map (fun k => (ft, k))) : p.1 = ft := by
  rcases List.mem_map.mp h with ⟨k, _, hke⟩
  rw [← hke]

theorem truthyKeys_nodup (db : List (String × Int)) (hnd : (db.map Prod.fst).Nodup) :
    (truthyKeys db).Nodup := by
  have hsub : List.Sublist ((db.filter (fun p => p.2 != 0)).map Prod.fst) (db.map Prod.fst) :=
    (List.filter_sublist db).map Prod.fst
  exact List.Nodup.sublist hsub hnd

theorem mapPair_truthy (ft : String) (db : List (String × Int)) :
    (db.filter (fun p => p.2 != 0)).map (fun p => (ft, p.1)) =
      (truthyKeys db).map (fun k => (ft, k)) := by
  simp [truthyKeys, List.map_map]

theorem pair_mem_prev_append (ft a : String) (prev : List (String × String)) (ks : List String)
    (hprev : ∀ p ∈ prev, p.1 ≠ ft) :
    ((ft, a) ∈ prev ++ ks.map (fun k => (ft, k))) ↔ a ∈ ks := by
  constructor
  · intro h
    rcases List.mem_append.mp h with hp | hm
    · exact absurd rfl (hprev _ hp)
    · rcases List.mem_map.mp hm with ⟨k, hk, hke⟩
      have h2 : k = a := congrArg Prod.snd hke
      exact h2 ▸ hk
  · intro h
    exact List.mem_append.mpr (Or.inr (List.mem_map.mpr ⟨a, h, rfl⟩))

theorem erase_step (ft a : String) (prev : List (String × String)) (ks : List String)
    (hks : ks.Nodup) (hprev : ∀ p ∈ prev, p.1 ≠ ft) :
    (if (ft, a) ∈ prev ++ ks.map (fun k => (ft, k)) then
      eraseFirst (prev ++ ks.map (fun k => (ft, k))) (ft, a)
    else prev ++ ks.map (fun k => (ft, k))) =
      prev ++ (ks.filter (fun k => decide (k ≠ a))).map (fun k => (ft, k)) := by
  by_cases hmem : a ∈ ks
  · rw [if_pos ((pair_mem_prev_append ft a prev ks hprev).mpr hmem)]
    have hnp : (ft, a) ∉ prev := fun hp => (hprev _ hp) rfl
    rw [eraseFirst_append_of_not_mem _ hnp, eraseFirst_map_pair,
      eraseFirst_eq_filter hks a]
  · rw [if_neg (fun hc => hmem ((pair_mem_prev_append ft a prev ks hprev).mp hc))]
    have hself : List.filter (fun k => decide (k ≠ a)) ks = ks :=
      List.filter_eq_self.mpr
        (fun b hb => decide_eq_true (fun he : b = a => hmem (he ▸ hb)))
    rw [hself]

theorem remove_step (ft a : String) (prev : List (String × String)) (ks : List String)
    (hks : ks.Nodup) (hprev : ∀ p ∈ prev, p.1 ≠ ft) :
    listRemove (prev ++ ks.map (fun k => (ft, k))) (ft, a) =
      if a ∈ ks then
        Except.ok (prev ++ (ks.filter (fun k => decide (k ≠ a))).map (fun k => (ft, k)))
      else Except.error PyErr.valueError := by
  by_cases hmem : a ∈ ks
  · rw [if_pos hmem, listRemove, if_pos ((pair_mem_prev_append ft a prev ks hprev).mpr hmem)]
    have hnp : (ft, a) ∉ prev := fun hp => (hprev _ hp) rfl
    rw [eraseFirst_append_of_not_mem _ hnp, eraseFirst_map_pair, eraseFirst_eq_filter hks a]
  · rw [if_neg hmem, listRemove,
      if_neg (fun hc => hmem ((pair_mem_prev_append ft a prev ks hprev).mp hc))]

theorem create_group_fields_ok (prev : List (String × String)) (g : Int)
    (db : List (String × Int)) (hnd : (db.map Prod.fst).Nodup)
    (hb : "block" ∈ truthyKeys db)
    (hprev : ∀ p ∈ prev, p.1 ≠ egroupLabel g) :
    _create_group_fields prev g db =
      Except.ok (prev ++ groupFieldList (egroupLabel g) db) := by
  have hks := truthyKeys_nodup db hnd
  simp only [_create_group_fields]
  rw [mapPair_truthy, erase_step _ _ _ _ hks hprev,
    remove_step _ _ _ _ (hks.filter _) hprev,
    if_pos (List.mem_filter.mpr ⟨hb, by decide⟩)]
  rfl

theorem remove_block_err (ft : String) (l : List (String × String))
    (hb : (ft, "block") ∉ l) :
    listRemove (if (ft, "angular_mesh") ∈ l then eraseFirst l (ft, "angular_mesh") else l)
      (ft, "block") = Except.error PyErr.valueError := by
  have hnb : (ft, "block") ∉
      (if (ft, "angular_mesh") ∈ l then eraseFirst l (ft, "angular_mesh") else l) := by
    by_cases ham : (ft, "angular_mesh") ∈ l
    · rw [if_pos ham]
      exact fun hc => hb (mem_of_mem_eraseFirst hc)
    · rw [if_neg ham]
      exact hb
  rw [listRemove, if_neg hnb]

theorem create_group_fields_err (prev : List (String × String)) (g : Int)
    (db : List (String × Int)) (hb : "block" ∉ truthyKeys db)
    (hprev : ∀ p ∈ prev, p.1 ≠ egroupLabel g) :
    _create_group_fields prev g db = Except.error PyErr.valueError := by
  simp only [_create_group_fields]
  rw [mapPair_truthy]
  exact remove_block_err _ _
    (fun hc => hb ((pair_mem_prev_append _ _ _ _ hprev).mp hc))

theorem detect_fallback_reduction (params : List (String × PyVal)) (db : List (String × Int))
    (hg : params.lookup "mesh_g" = none ∨ params.lookup "mesh_g" = some (PyVal.arr [])) :
    _detect_output_fields params db =
      listRemove
        (if ("denovo", "angular_mesh") ∈
            (db.filter (fun p => p.2 != 0)).map (fun p => (("denovo" : String), p.1)) then
          eraseFirst ((db.filter (fun p => p.2 != 0)).map (fun p => (("denovo" : String), p.1)))
            ("denovo", "angular_mesh")
        else (db.filter (fun p => p.2 != 0)).map (fun p => (("denovo" : String), p.1)))
        ("denovo", "block") := by
  rcases hg with h | h <;>
    simp [_detect_output_fields, h, pyLen, bind, Except.bind, pure, Except.pure]

theorem detect_groups_reduction (params : List (String × PyVal)) (db : List (String × Int))
    (gs : List Int) (hg : params.lookup "mesh_g" = some (PyVal.arr gs)) (hne : gs ≠ []) :
    _detect_output_fields params db =
      gs.foldlM (fun fl g => _create_group_fields fl g db) [] := by
  obtain ⟨g, gt, rfl⟩ := List.exists_cons_of_ne_nil hne
  simp [_detect_output_fields, hg, pyLen, bind, Except.bind]

theorem detect_fallback_ok (params : List (String × PyVal)) (db : List (String × Int))
    (hnd : (db.map Prod.fst).Nodup) (hb : "block" ∈ truthyKeys db)
    (hg : params.lookup "mesh_g" = none ∨ params.lookup "mesh_g" = some (PyVal.arr [])) :
    _detect_output_fields params db = Except.ok (groupFieldList "denovo" db) := by
  have hks := truthyKeys_nodup db hnd
  have he := erase_step "denovo" "angular_mesh" [] (truthyKeys db) hks (by simp)
  have hr := remove_step "denovo" "block"
    [] ((truthyKeys db).filter (fun k => decide (k ≠ "angular_mesh")))
    (hks.filter _) (by simp)
  simp only [List.nil_append] at he hr
  rw [detect_fallback_reduction params db hg, mapPair_truthy, he, hr,
    if_pos (List.mem_filter.mpr ⟨hb, by decide⟩)]
  rfl

theorem pairLabel_fst_groupFieldList {ft : String} {db : List (String × Int)}
    {p : String × String} (hp : p ∈ groupFieldList ft db) : p.1 = ft := by
  rw [groupFieldList] at hp
  exact pairLabel_fst hp

theorem detect_groups_12_ok (params : List (String × PyVal)) (db : List (String × Int))
    (hnd : (db.map Prod.fst).Nodup) (hb : "block" ∈ truthyKeys db)
    (hg : params.lookup "mesh_g" = some (PyVal.arr [1, 2])) :
    _detect_output_fields params db =
      Except.ok (groupFieldList "egroup_001" db ++ groupFieldList "egroup_002" db) := by
  have e1 : egroupLabel 1 = "egroup_001" := by decide
  have e2 : egroupLabel 2 = "egroup_002" := by decide
  have h1 : _create_group_fields [] 1 db = Except.ok (groupFieldList "egroup_001" db) := by
    have h := create_group_fields_ok [] 1 db hnd hb (by simp)
    rw [e1] at h
    simpa using h
  have hprev : ∀ p ∈ groupFieldList "egroup_001" db, p.1 ≠ egroupLabel 2 := by
    intro p hp
    rw [e2, pairLabel_fst_groupFieldList hp]
    decide
  have h2 : _create_group_fields (groupFieldList "egroup_001" db) 2 db =
      Except.ok (groupFieldList "egroup_001" db ++ groupFieldList "egroup_002" db) := by
    have h := create_group_fields_ok (groupFieldList "egroup_001" db) 2 db hnd hb hprev
    rw [e2] at h
    exact h
  rw [detect_groups_reduction params db [1, 2] hg (by decide), List.foldlM_cons, h1]
  show List.foldlM (fun fl g => _create_group_fields fl g db)
    (groupFieldList "egroup_001" db) [2] = _
  rw [List.foldlM_cons, h2]
  rfl

theorem detect_block_untruthy_err (params : List (String × PyVal)) (db : List (String × Int))
    (hb : "block" ∉ truthyKeys db)
    (hg : params.lookup "mesh_g" = none ∨
      ∃ gs, params.lookup "mesh_g" = some (PyVal.arr gs)) :
    _detect_output_fields params db = Except.error PyErr.valueError := by
  have hnotin : ("denovo", "block") ∉ (truthyKeys db).map (fun k => (("denovo" : String), k)) :=
    fun hc => hb ((pair_mem_prev_append "denovo" "block" [] (truthyKeys db) (by simp)).mp hc)
  rcases hg with h | ⟨gs, h⟩
  · rw [detect_fallback_reduction params db (Or.inl h), mapPair_truthy]
    exact remove_block_err _ _ hnotin
  · cases gs with
    | nil =>
        rw [detect_fallback_reduction params db (Or.inr h), mapPair_truthy]
        exact remove_block_err _ _ hnotin
    | cons g gt =>
        rw [detect_groups_reduction params db (g :: gt) h (by simp), List.foldlM_cons,
          create_group_fields_err [] g db hb (by simp)]
        rfl

theorem mem_truthyKeys (db : List (String × Int)) (k : String) :
    k ∈ truthyKeys db ↔ ∃ v, (k, v) ∈ db ∧ v ≠ 0 := by
  simp [truthyKeys]

theorem pair_mem_truthyMap (ftl ft k : String) (db : List (String × Int)) :
    ((ft, k) ∈ (db.filter (fun p => p.2 != 0)).map (fun p => (ftl, p.1))) ↔
      (ft = ftl ∧ k ∈ truthyKeys db) := by
  rw [mapPair_truthy]
  constructor
  · intro h
    rcases List.mem_map.mp h with ⟨k2, hk2, hke⟩
    have hfe : ftl = ft := congrArg Prod.fst hke
    have hk2e : k2 = k := congrArg Prod.snd hke
    exact ⟨hfe.symm, hk2e ▸ hk2⟩
  · rintro ⟨hft, hk⟩
    subst hft
    exact List.mem_map.mpr ⟨k, hk, rfl⟩

theorem remove_chain_mem_iff (ftl : String) (prev : List (String × String))
    (db : List (String × Int)) (out : List (String × String))
    (hok : listRemove
        (if (ftl, "angular_mesh") ∈
            prev ++ (db.filter (fun p => p.2 != 0)).map (fun p => (ftl, p.1)) then
          eraseFirst (prev ++ (db.filter (fun p => p.2 != 0)).map (fun p => (ftl, p.1)))
            (ftl, "angular_mesh")
        else prev ++ (db.filter (fun p => p.2 != 0)).map (fun p => (ftl, p.1)))
        (ftl, "block") = Except.ok out)
    (k ft : String) (hkb : k ≠ "block") (hka : k ≠ "angular_mesh") :
    ((ft, k) ∈ out ↔ (ft, k) ∈ prev ∨ (ft = ftl ∧ k ∈ truthyKeys db)) := by
  have ne1 : (ft, k) ≠ (ftl, "block") := fun h => hkb (congrArg Prod.snd h)
  have ne2 : (ft, k) ≠ (ftl, "angular_mesh") := fun h => hka (congrArg Prod.snd h)
  rw [listRemove] at hok
  by_cases ham : (ftl, "angular_mesh") ∈
      prev ++ (db.filter (fun p => p.2 != 0)).map (fun p => (ftl, p.1))
  · rw [if_pos ham] at hok
    by_cases hb : (ftl, "block") ∈
        eraseFirst (prev ++ (db.filter (fun p => p.2 != 0)).map (fun p => (ftl, p.1)))
          (ftl, "angular_mesh")
    · rw [if_pos hb] at hok
      have hout := (Except.ok.inj hok).symm
      subst hout
      rw [mem_eraseFirst_of_ne ne1, mem_eraseFirst_of_ne ne2, List.mem_append,
        pair_mem_truthyMap]
    · rw [if_neg hb] at hok
      cases hok
  · rw [if_neg ham] at hok
    by_cases hb : (ftl, "block") ∈
        prev ++ (db.filter (fun p => p.2 != 0)).map (fun p => (ftl, p.1))
    · rw [if_pos hb] at hok
      have hout := (Except.ok.inj hok).symm
      subst hout
      rw [mem_eraseFirst_of_ne ne1, List.mem_append, pair_mem_truthyMap]
    · rw [if_neg hb] at hok
      cases hok

theorem create_mem_iff (prev : List (String × String)) (g : Int)
    (db : List (String × Int)) (out : List (String × String))
    (hok : _create_group_fields prev g db = Except.ok out)
    (k ft : String) (hkb : k ≠ "block") (hka : k ≠ "angular_mesh") :
    ((ft, k) ∈ out ↔ (ft, k) ∈ prev ∨ (ft = egroupLabel g ∧ k ∈ truthyKeys db)) :=
  remove_chain_mem_iff (egroupLabel g) prev db out hok k ft hkb hka

theorem foldlM_create_mem_iff (db : List (String × Int)) :
    ∀ (gs : List Int) (init l : List (String × String)),
    List.foldlM (fun fl g => _create_group_fields fl g db) init gs = Except.ok l →
    ∀ (k ft : String), k ≠ "block" → k ≠ "angular_mesh" →
    ((ft, k) ∈ l ↔
      (ft, k) ∈ init ∨ ∃ g ∈ gs, ft = egroupLabel g ∧ k ∈ truthyKeys db) := by
  intro gs
  induction gs with
  | nil =>
      intro init l hok k ft hkb hka
      rw [List.foldlM_nil] at hok
      have h2 : Except.ok init = Except.ok l := hok
      have h3 := Except.ok.inj h2
      subst h3
      simp
  | cons g gt ih =>
      intro init l hok k ft hkb hka
      rw [List.foldlM_cons] at hok
      cases hc : _create_group_fields init g db with
      | error e =>
          rw [hc] at hok
          have h2 : (Except.error e : Except PyErr (List (String × String))) =
              Except.ok l := hok
          cases h2
      | ok mid =>
          rw [hc] at hok
          have hok2 : List.foldlM (fun fl g => _create_group_fields fl g db) mid gt =
              Except.ok l := hok
          rw [ih mid l hok2 k ft hkb hka, create_mem_iff init g db mid hc k ft hkb hka]
          constructor
          · rintro ((hin | ⟨hft, hk⟩) | ⟨g2, hg2, hp⟩)
            · exact Or.inl hin
            · exact Or.inr ⟨g, List.mem_cons_self _ _, hft, hk⟩
            · exact Or.inr ⟨g2, List.mem_cons_of_mem _ hg2, hp⟩
          · rintro (hin | ⟨g2, hg2, hp⟩)
            · exact Or.inl (Or.inl hin)
            · rcases List.mem_cons.mp hg2 with hge | hgm
              · exact Or.inl (Or.inr (hge ▸ hp))
              · exact Or.inr ⟨g2, hgm, hp⟩

theorem detect_scalar_mesh_g (params : List (String × PyVal)) (db : List (String × Int))
    (n : Int) (hg : params.lookup "mesh_g" = some (PyVal.int n)) :
    _detect_output_fields params db = Except.error PyErr.typeError := by
  simp [_detect_output_fields, hg, pyLen, bind, Except.bind]

/-- C2: with mesh_g equal to the empty list, whenever `_detect_output_fields`
returns a field list, every entry of that list carries the fixed fallback
field-type "denovo", the pair ("denovo","block") is never in it, and
("denovo","angular_mesh") is never in it (in particular not when the
enumerated names include it). -/
theorem C2_fallback_fields (params : List (String × PyVal)) (db : List (String × Int))
    (l : List (String × String)) (hnd : (db.map Prod.fst).Nodup)
    (hg : params.lookup "mesh_g" = some (PyVal.arr []))
    (hl : _detect_output_fields params db = Except.ok l) :
    (∀ p ∈ l, p.1 = "denovo") ∧ ("denovo", "block") ∉ l ∧ ("denovo", "angular_mesh") ∉ l := by
  by_cases hb : "block" ∈ truthyKeys db
  · rw [detect_fallback_ok params db hnd hb (Or.inr hg)] at hl
    have hleq : l = groupFieldList "denovo" db := (Except.ok.inj hl).symm
    subst hleq
    refine ⟨fun p hp => pairLabel_fst_groupFieldList hp, ?_, ?_⟩
    · intro hc
      rw [groupFieldList] at hc
      rcases List.mem_map.mp hc with ⟨k, hk, hke⟩
      have hkb : k = "block" := congrArg Prod.snd hke
      subst hkb
      have h2 := (List.mem_filter.mp hk).2
      simp at h2
    · intro hc
      rw [groupFieldList] at hc
      rcases List.mem_map.mp hc with ⟨k, hk, hke⟩
      have hkb : k = "angular_mesh" := congrArg Prod.snd hke
      subst hkb
      have h2 := (List.mem_filter.mp (List.mem_filter.mp hk).1).2
      simp at h2
  · rw [detect_block_untruthy_err params db hb (Or.inr ⟨[], hg⟩)] at hl
    cases hl

/-- C2 witness: a concrete hdf5_db with truthy flux, block and angular_mesh
and a falsy dataset yields exactly the field list with the single entry
("denovo","flux"). -/
theorem C2_fallback_fields_witness :
    (∀ p ∈ [(("denovo" : String), ("flux" : String))], p.1 = "denovo") ∧
    ("denovo", "block") ∉ [(("denovo" : String), ("flux" : String))] ∧
    ("denovo", "angular_mesh") ∉ [(("denovo" : String), ("flux" : String))] :=
  C2_fallback_fields [("mesh_g", PyVal.arr [])]
    [("flux", 1), ("block", 1), ("angular_mesh", 1), ("zero", 0)]
    [("denovo", "flux")] (by decide) rfl rfl

/-- C3 counterexample: the claim "a name is in the field list iff its stored
scalar is truthy" fails at the dataset named "block": in a file whose
hdf5_db stores a truthy scalar under "block", the ("denovo","block") pair is
still removed from the field list, so a truthy dataset is excluded. -/
theorem C3_counterexample :
    _detect_output_fields [("mesh_g", PyVal.arr [])] [("block", 1), ("flux", 1)] =
      Except.ok [("denovo", "flux")] ∧
    ("block", (1 : Int)) ∈ [(("block" : String), (1 : Int)), ("flux", 1)] ∧ (1 : Int) ≠ 0 ∧
    ("denovo", "block") ∉ [(("denovo" : String), ("flux" : String))] :=
  ⟨rfl, by decide, by decide, by decide⟩

/-- C3 amended: whenever field detection returns a field list (under any
mesh_g state: absent, empty, or a list of group numbers), a dataset of
hdf5_db whose name is neither "block" nor "angular_mesh" has its name in
the field list (under some field-type label) exactly when its stored
scalar is truthy. -/
theorem C3_amended_truthy_iff (params : List (String × PyVal)) (db : List (String × Int))
    (l : List (String × String)) (k : String)
    (hl : _detect_output_fields params db = Except.ok l)
    (hkb : k ≠ "block") (hka : k ≠ "angular_mesh") :
    ((∃ ft, (ft, k) ∈ l) ↔ ∃ v, (k, v) ∈ db ∧ v ≠ 0) := by
  rw [← mem_truthyKeys]
  cases hg : params.lookup "mesh_g" with
  | none =>
      rw [detect_fallback_reduction params db (Or.inl hg)] at hl
      have h := remove_chain_mem_iff "denovo" [] db l hl k
      constructor
      · rintro ⟨ft, hft⟩
        rcases (h ft hkb hka).mp hft with hfalse | ⟨_, hk⟩
        · exact absurd hfalse (List.not_mem_nil _)
        · exact hk
      · intro hk
        exact ⟨"denovo", (h "denovo" hkb hka).mpr (Or.inr ⟨rfl, hk⟩)⟩
  | some v =>
      cases v with
      | int n =>
          rw [detect_scalar_mesh_g params db n hg] at hl
          cases hl
      | arr gs =>
          cases gs with
          | nil =>
              rw [detect_fallback_reduction params db (Or.inr hg)] at hl
              have h := remove_chain_mem_iff "denovo" [] db l hl k
              constructor
              · rintro ⟨ft, hft⟩
                rcases (h ft hkb hka).mp hft with hfalse | ⟨_, hk⟩
                · exact absurd hfalse (List.not_mem_nil _)
                · exact hk
              · intro hk
                exact ⟨"denovo", (h "denovo" hkb hka).mpr (Or.inr ⟨rfl, hk⟩)⟩
          | cons g gt =>
              rw [detect_groups_reduction params db (g :: gt) hg (by simp)] at hl
              have h := foldlM_create_mem_iff db (g :: gt) [] l hl k
              constructor
              · rintro ⟨ft, hft⟩
                rcases (h ft hkb hka).mp hft with hfalse | ⟨g2, _, _, hk⟩
                · exact absurd hfalse (List.not_mem_nil _)
                · exact hk
              · intro hk
                exact ⟨egroupLabel g, (h (egroupLabel g) hkb hka).mpr
                  (Or.inr ⟨g, List.mem_cons_self _ _, rfl, hk⟩)⟩

/-- C3 amended witness: with mesh_g=[1,2], the truthy "flux" dataset is in
the produced field list and the equivalence with truthiness holds. -/
theorem C3_amended_truthy_iff_witness :
    ((∃ ft, (ft, "flux") ∈
        [(("egroup_001" : String), ("flux" : String)), ("egroup_002", "flux")]) ↔
      ∃ v, (("flux" : String), v) ∈
          [(("flux" : String), (1 : Int)), ("block", 1), ("angular_mesh", 1), ("zero", 0)] ∧
        v ≠ 0) :=
  C3_amended_truthy_iff [("mesh_g", PyVal.arr [1, 2])]
    [("flux", 1), ("block", 1), ("angular_mesh", 1), ("zero", 0)]
    [("egroup_001", "flux"), ("egroup_002", "flux")] "flux" rfl (by decide) (by decide)

/-- C7: with mesh_g=[1,2], field detection returns the concatenation of one
per-group field list for the label "egroup_001" and one for "egroup_002"
(group numbers zero-padded to width 3), each list being the truthy dataset
names with the 'block' and 'angular_mesh' exclusions applied, and every
entry of the result carries one of those two labels. -/
theorem C7_two_groups (params : List (String × PyVal)) (db : List (String × Int))
    (hnd : (db.map Prod.fst).Nodup) (hb : "block" ∈ truthyKeys db)
    (hg : params.lookup "mesh_g" = some (PyVal.arr [1, 2])) :
    _detect_output_fields params db =
      Except.ok (groupFieldList "egroup_001" db ++ groupFieldList "egroup_002" db) ∧
    ∀ p ∈ groupFieldList "egroup_001" db ++ groupFieldList "egroup_002" db,
      p.1 = "egroup_001" ∨ p.1 = "egroup_002" := by
  refine ⟨detect_groups_12_ok params db hnd hb hg, ?_⟩
  intro p hp
  rcases List.mem_append.mp hp with h | h
  · exact Or.inl (pairLabel_fst_groupFieldList h)
  · exact Or.inr (pairLabel_fst_groupFieldList h)

/-- C7 witness: the two-group enumeration evaluated on a concrete hdf5_db
with truthy flux and block datasets. -/
theorem C7_two_groups_witness :
    _detect_output_fields [("mesh_g", PyVal.arr [1, 2])] [("flux", 1), ("block", 1)] =
      Except.ok (groupFieldList "egroup_001" [("flux", 1), ("block", 1)] ++
        groupFieldList "egroup_002" [("flux", 1), ("block", 1)]) ∧
    ∀ p ∈ groupFieldList "egroup_001" [("flux", 1), ("block", 1)] ++
        groupFieldList "egroup_002" [("flux", 1), ("block", 1)],
      p.1 = "egroup_001" ∨ p.1 = "egroup_002" :=
  C7_two_groups [("mesh_g", PyVal.arr [1, 2])] [("flux", 1), ("block", 1)]
    (by decide) (by decide) rfl

/-- C9: both enumeration branches presuppose a truthy 'block' dataset: when
the hdf5_db group lacks "block" or stores a falsy scalar under it,
`_detect_output_fields` raises ValueError (from the unconditional
`list.remove`) instead of returning a field list, whether mesh_g is absent
or holds any list of group numbers. -/
theorem C9_missing_block_valueerror (params : List (String × PyVal))
    (db : List (String × Int)) (hb : "block" ∉ truthyKeys db)
    (hg : params.lookup "mesh_g" = none ∨
      ∃ gs, params.lookup "mesh_g" = some (PyVal.arr gs)) :
    _detect_output_fields params db = Except.error PyErr.valueError :=
  detect_block_untruthy_err params db hb hg

/-- C9 witness: a falsy "block" dataset makes field detection raise
ValueError. -/
theorem C9_missing_block_valueerror_witness :
    _detect_output_fields [] [("flux", 1), ("block", 0)] = Except.error PyErr.valueError :=
  C9_missing_block_valueerror [] [("flux", 1), ("block", 0)] (by decide) (Or.inl rfl)

theorem dictSet_fresh (m : List (String × PyVal)) (k : String) (v : PyVal)
    (h : ∀ p ∈ m, p.1 ≠ k) : dictSet m k v = m ++ [(k, v)] := by
  rw [dictSet, if_neg]
  intro hc
  rcases List.any_eq_true.mp hc with ⟨p, hp, hpe⟩
  exact h p hp (by simpa using hpe)

theorem loadParams_aux (root : List (String × H5Entry)) : ∀ acc : List (String × PyVal),
    (∀ p ∈ acc, p.1 ∉ root.map Prod.fst) → (root.map Prod.fst).Nodup →
    root.foldl loadStep acc = acc ++ canonicalParams root := by
  induction root with
  | nil =>
      intro acc _ _
      simp [canonicalParams]
  | cons q root ih =>
      intro acc hdisj hnd
      obtain ⟨k, e⟩ := q
      rw [List.map_cons, List.nodup_cons] at hnd
      have hdisj2 : ∀ p ∈ acc, p.1 ∉ root.map Prod.fst :=
        fun p hp hc => hdisj p hp (List.mem_cons_of_mem _ hc)
      cases e with
      | group =>
          rw [List.foldl_cons]
          have hred : canonicalParams ((k, H5Entry.group) :: root) = canonicalParams root := by
            simp [canonicalParams]
          rw [hred]
          exact ih acc hdisj2 hnd.2
      | dataset v =>
          by_cases hs : k ∈ skippedKeys
          · rw [List.foldl_cons]
            have hstep : loadStep acc (k, H5Entry.dataset v) = acc := by
              rw [loadStep, if_pos hs]
            have hred : canonicalParams ((k, H5Entry.dataset v) :: root) =
                canonicalParams root := by
              simp [canonicalParams, hs]
            rw [hstep, hred]
            exact ih acc hdisj2 hnd.2
          · rw [List.foldl_cons]
            have hstep : loadStep acc (k, H5Entry.dataset v) = acc ++ [(k, v)] := by
              rw [loadStep, if_neg hs]
              exact dictSet_fresh acc k v
                (fun p hp hc => hdisj p hp (hc ▸ List.mem_cons_self _ _))
            rw [hstep]
            have hdisj3 : ∀ p ∈ acc ++ [(k, v)], p.1 ∉ root.map Prod.fst := by
              intro p hp
              rcases List.mem_append.mp hp with h1 | h2
              · exact hdisj2 p h1
              · have hpk : p = (k, v) := List.mem_singleton.mp h2
                rw [hpk]
                exact hnd.1
            rw [ih (acc ++ [(k, v)]) hdisj3 hnd.2]
            have hred : canonicalParams ((k, H5Entry.dataset v) :: root) =
                (k, v) :: canonicalParams root := by
              simp [canonicalParams, hs]
            rw [hred, List.append_assoc]
            rfl

theorem load_parameters_eq (root : List (String × H5Entry))
    (hnd : (root.map Prod.fst).Nodup) :
    _load_parameters root = canonicalParams root := by
  have h := loadParams_aux root [] (by simp) hnd
  rw [_load_parameters]
  simpa using h

theorem canonicalParams_mem (root : List (String × H5Entry)) (k : String) (v : PyVal) :
    (k, v) ∈ canonicalParams root ↔ (k, H5Entry.dataset v) ∈ root ∧ k ∉ skippedKeys := by
  rw [canonicalParams, List.mem_filterMap]
  constructor
  · rintro ⟨⟨k2, e⟩, hmem, heq⟩
    cases e with
    | group => simp at heq
    | dataset v2 =>
        by_cases hs : k2 ∈ skippedKeys
        · simp [hs] at heq
        · simp [hs] at heq
          obtain ⟨hk, hv⟩ := heq
          rw [hk, hv] at hmem
          exact ⟨hmem, hk ▸ hs⟩
  · rintro ⟨hmem, hs⟩
    exact ⟨(k, H5Entry.dataset v), hmem, by simp [hs]⟩

/-- C8: the parameter mapping produced by `_load_parameters` never contains
the keys flux, source, angular_flux or block, even when they are top-level
datasets; every other leaf dataset directly under the root group is copied
into the mapping with its concrete value; and everything in the mapping
comes from such a top-level leaf dataset (so nothing inside nested groups
is copied). -/
theorem C8_load_parameters (root : List (String × H5Entry))
    (hnd : (root.map Prod.fst).Nodup) :
    (∀ k ∈ skippedKeys, ∀ v, (k, v) ∉ _load_parameters root) ∧
    (∀ k v, (k, H5Entry.dataset v) ∈ root → k ∉ skippedKeys →
      (k, v) ∈ _load_parameters root) ∧
    (∀ k v, (k, v) ∈ _load_parameters root →
      (k, H5Entry.dataset v) ∈ root ∧ k ∉ skippedKeys) := by
  rw [load_parameters_eq root hnd]
  refine ⟨?_, ?_, ?_⟩
  · intro k hk v hc
    exact ((canonicalParams_mem root k v).mp hc).2 hk
  · intro k v hm hs
    exact (canonicalParams_mem root k v).mpr ⟨hm, hs⟩
  · intro k v hc
    exact (canonicalParams_mem root k v).mp hc

/-- C8 witness: a concrete root group with a skipped dataset, a kept dataset
and a nested subgroup. -/
theorem C8_load_parameters_witness :
    (∀ k ∈ skippedKeys, ∀ v,
      (k, v) ∉ _load_parameters
        [("flux", H5Entry.dataset (PyVal.int 3)),
          ("mesh_x", H5Entry.dataset (PyVal.arr [1])), ("db", H5Entry.group)]) ∧
    (∀ k v, (k, H5Entry.dataset v) ∈
        [(("flux" : String), H5Entry.dataset (PyVal.int 3)),
          ("mesh_x", H5Entry.dataset (PyVal.arr [1])), ("db", H5Entry.group)] →
      k ∉ skippedKeys →
      (k, v) ∈ _load_parameters
        [("flux", H5Entry.dataset (PyVal.int 3)),
          ("mesh_x", H5Entry.dataset (PyVal.arr [1])), ("db", H5Entry.group)]) ∧
    (∀ k v, (k, v) ∈ _load_parameters
        [("flux", H5Entry.dataset (PyVal.int 3)),
          ("mesh_x", H5Entry.dataset (PyVal.arr [1])), ("db", H5Entry.group)] →
      (k, H5Entry.dataset v) ∈
        [(("flux" : String), H5Entry.dataset (PyVal.int 3)),
          ("mesh_x", H5Entry.dataset (PyVal.arr [1])), ("db", H5Entry.group)] ∧
      k ∉ skippedKeys) :=
  C8_load_parameters
    [("flux", H5Entry.dataset (PyVal.int 3)),
      ("mesh_x", H5Entry.dataset (PyVal.arr [1])), ("db", H5Entry.group)] (by decide)
